import Mathlib

/-!
# Verification of the ccpp single-header preprocessor (src/ccpp.h)

Shallow embedding of the directive-processing engine of `ccpp.h`:

* the token lexer (`lex`, lines 170-242),
* `lex_expect` / `lex_next` (lines 244-276),
* the define set (`add_define` / `remove_define` / `has_define`, lines 334-368),
* the condition evaluator (`test_condition`, lines 730-818),
* the scope-stack directive dispatcher (`process`, lines 385-728),
* the buffer blanker (`overwrite`, lines 848-856).

The buffer is a `List Char`; the cursor `m_p` is an offset `pos` into it and
`m_pEnd` is `buf.length`.  The C++ loops (`process`'s `while`,
`consume_line`, `test_condition`'s `while (true)`) are not structurally
terminating on all inputs — `consume_line` genuinely diverges when the
buffer ends without a newline — so each is written with an explicit fuel
parameter and returns `none` when the fuel runs out.  A result of
`some st` is reached exactly when the C++ loop finishes within `fuel`
iterations; every iteration of each loop is modelled one-to-one.

`CCPP_ERROR` / `CCPP_ASSERT` calls append a `CErr` value to an error log
carried in the state; the custom-command callback's invocations are logged
in `calls` (word and value argument, `none` for the C++ `nullptr`).
-/

/-- `ELexType` (ccpp.h lines 138-147). -/
inductive ELexType where
  | None
  | Whitespace
  | Newline
  | Word
  | Operator
  | String
deriving Repr, DecidableEq, BEq

/-- `c == ' ' || c == '\t'` (line 197). -/
def isWhitespaceC (c : Char) : Bool := c == ' ' || c == '\t'

/-- `c == '\r' || c == '\n'` (line 198). -/
def isNewlineC (c : Char) : Bool := c == '\r' || c == '\n'

/-- alphanumeric or underscore (line 199). -/
def isWordC (c : Char) : Bool :=
  ('a' ≤ c && c ≤ 'z') || ('A' ≤ c && c ≤ 'Z') || ('0' ≤ c && c ≤ '9') || c == '_'

/-- `! & | ( )` (line 200). -/
def isOperatorC (c : Char) : Bool :=
  c == '!' || c == '&' || c == '|' || c == '(' || c == ')'

/-- The string-scanning loop of `lex` (lines 179-189).  The argument is the
remaining buffer with the cursor at the guard check (`p < pEnd`); the result
is the number of `p++` increments performed.  A dereference one past the end
(`*p` after `p++` brought `p` to `pEnd`) reads the NUL terminator of the
caller's buffer, which is neither `\` nor `"`, so the loop re-checks the
guard and exits. -/
def lexStrAux : List Char → Nat
  | [] => 0
  | _ :: rest =>
    match rest with
    | [] => 1
    | c :: rest2 =>
      if c = '\\' then 2 + lexStrAux rest2
      else if c = '"' then 2
      else 1 + lexStrAux (c :: rest2)

/-- The non-string loop of `lex` (lines 191-239): state is the remaining
buffer, the current token type and the `haveNewlineR` / `haveNewlineN`
flags; the result is the final type with the number of characters
consumed. -/
def lexMain : List Char → ELexType → Bool → Bool → ELexType × Nat
  | [], ty, _, _ => (ty, 0)
  | c :: rest, ty, hr, hn =>
    if isNewlineC c && ((c == '\r' && hr) || (c == '\n' && hn)) then
      (ty, 0)
    else
      let hr' := hr || c == '\r'
      let hn' := hn || c == '\n'
      if ty = ELexType.None then
        let ty' :=
          if isWhitespaceC c then ELexType.Whitespace
          else if isNewlineC c then ELexType.Newline
          else if isWordC c then ELexType.Word
          else if isOperatorC c then ELexType.Operator
          else ELexType.None
        let r := lexMain rest ty' hr' hn'
        (r.1, r.2 + 1)
      else
        if (ty = ELexType.Whitespace && !isWhitespaceC c)
            || (ty = ELexType.Newline && !isNewlineC c)
            || (ty = ELexType.Word && !isWordC c)
            || (ty = ELexType.Operator && !isOperatorC c) then
          (ty, 0)
        else
          let r := lexMain rest ty hr' hn'
          (r.1, r.2 + 1)

/-- `lex` (lines 170-242): classify the token starting at the cursor,
returning its type and length.  `s` is the buffer suffix from the cursor. -/
def lex (s : List Char) : ELexType × Nat :=
  if s.head? = some '"' then (ELexType.String, lexStrAux s)
  else lexMain s ELexType.None false false

/-- Error events: one constructor per `CCPP_ERROR` / `CCPP_ASSERT` call site. -/
inductive CErr where
  /-- `lex_expect` mismatch (line 252): actual and expected type. -/
  | lexUnexpected (got expected : ELexType)
  /-- duplicate define (line 337). -/
  | defineExists (name : String)
  /-- undef of a missing define (line 357). -/
  | undefMissing (name : String)
  /-- unexpected `#else` (lines 541 and 550). -/
  | unexpectedElse (line : Nat)
  /-- unexpected `#elif` (lines 576 and 585). -/
  | unexpectedElif (line : Nat)
  /-- unexpected `#endif` (line 620). -/
  | unexpectedEndif (line : Nat)
  /-- no include callback configured (line 641). -/
  | noIncludeCallback (line : Nat)
  /-- include callback returned false (line 666). -/
  | includeFailed (path : String) (line : Nat)
  /-- unrecognized preprocessor command (line 712). -/
  | unknownCommand (cmd : String) (line : Nat)
  /-- unexpected operator in condition (line 768). -/
  | condUnexpectedOperator (c : Char) (line : Nat)
  /-- unexpected token type in condition (line 774). -/
  | condUnexpectedType (t : ELexType) (line : Nat)
  /-- `CCPP_ASSERT(conditions.size() == 1)` failed (line 816); carries the
  actual size. -/
  | assertCondSize (n : Nat)
  /-- unclosed scopes at end of buffer (line 723); carries the residual
  stack depth. -/
  | unclosedScopes (n : Nat)
deriving Repr, DecidableEq

/-- A scope-stack frame: the bit flags of lines 280-296 as named booleans
(`Scope_Passing`, `Scope_Erasing`, `Scope_Else`, `Scope_ElseIf`,
`Scope_Deep`). -/
structure Scope where
  passing : Bool
  erasing : Bool
  scopeElse : Bool
  elseIf : Bool
  deep : Bool
deriving Repr, DecidableEq

/-- `Scope_Passing`. -/
def scopePassing : Scope := ⟨true, false, false, false, false⟩
/-- `Scope_Erasing`. -/
def scopeErasing : Scope := ⟨false, true, false, false, false⟩
/-- `Scope_Erasing | Scope_Deep`. -/
def scopeErasingDeep : Scope := ⟨false, true, false, false, true⟩
/-- `Scope_Erasing | Scope_Else`. -/
def scopeErasingElse : Scope := ⟨false, true, true, false, false⟩
/-- `Scope_Passing | Scope_Else`. -/
def scopePassingElse : Scope := ⟨true, false, true, false, false⟩
/-- `Scope_Erasing | Scope_ElseIf | Scope_Deep`. -/
def scopeErasingElseIfDeep : Scope := ⟨false, true, false, true, true⟩
/-- `Scope_Passing | Scope_ElseIf`. -/
def scopePassingElseIf : Scope := ⟨true, false, false, true, false⟩
/-- `Scope_Erasing | Scope_ElseIf`. -/
def scopeErasingElseIf : Scope := ⟨false, true, false, true, false⟩

/-- `char ccpp::character = '#'` (line 278), the directive marker. -/
def character : Char := '#'

/-- Processor state during one `process` call: the buffer, the cursor
(`m_p` as `pos`, with `m_pEnd = buf.length`), `m_line` / `m_column`, the
define set `m_defines` (insertion order kept, appended at the back), the
scope stack `m_stack` (head is the top), the `CCPP_ERROR` log, and the log
of custom-command callback invocations. -/
structure PState where
  buf : List Char
  pos : Nat
  line : Nat
  col : Nat
  defines : List String
  stack : List Scope
  errors : List CErr
  calls : List (String × Option String)
deriving Repr, DecidableEq

instance : Inhabited PState := ⟨⟨[], 0, 0, 0, [], [], [], []⟩⟩

/-- The buffer suffix from the cursor (`m_p` to `m_pEnd`). -/
def sfx (st : PState) : List Char := st.buf.drop st.pos

/-- `m_p += n`. -/
def PState.advance (st : PState) (n : Nat) : PState := { st with pos := st.pos + n }

/-- Append a `CCPP_ERROR` event. -/
def PState.addErr (st : PState) (e : CErr) : PState := { st with errors := st.errors ++ [e] }

/-- `lex_expect` (lines 244-257): returns the length on a type match, and
`0` together with the reported error on a mismatch. -/
def lex_expect (s : List Char) (expected : ELexType) : Nat × Option CErr :=
  let r := lex s
  if r.1 = expected then (r.2, none)
  else (0, some (CErr.lexUnexpected r.1 expected))

/-- `lex_next` (lines 259-276): lex once, skip a leading whitespace token,
and return the (second) token's type, the total advance, and the token's
characters (`*start` / `*len`). -/
def lex_next (s : List Char) : ELexType × Nat × List Char :=
  let r := lex s
  if r.1 = ELexType.Whitespace then
    let s2 := s.drop r.2
    let r2 := lex s2
    (r2.1, r.2 + r2.2, s2.take r2.2)
  else (r.1, r.2, s.take r.2)

/-- `has_define` (lines 360-368). -/
def has_define (defs : List String) (name : String) : Bool := defs.contains name

/-- `add_define` (lines 334-346): error (and no change) on a duplicate,
otherwise append an owned copy. -/
def add_defineS (st : PState) (name : String) : PState :=
  if has_define st.defines name then st.addErr (CErr.defineExists name)
  else { st with defines := st.defines ++ [name] }

/-- The erase loop of `remove_define` (lines 350-355): remove the first
occurrence, `none` when absent. -/
def remove_defineAux : List String → String → Option (List String)
  | [], _ => none
  | d :: rest, name =>
    if d == name then some rest
    else match remove_defineAux rest name with
      | some r => some (d :: r)
      | none => none

/-- `remove_define` (lines 348-358). -/
def remove_defineS (st : PState) (name : String) : PState :=
  match remove_defineAux st.defines name with
  | some r => { st with defines := r }
  | none => st.addErr (CErr.undefMissing name)

/-- `overwrite` (lines 848-856): blank `len` characters starting at
`start` to spaces, leaving `\r` and `\n` untouched. -/
def overwriteBuf : List Char → Nat → Nat → List Char
  | [], _, _ => []
  | c :: rest, start, len =>
    let c' := if start = 0 ∧ 0 < len ∧ c ≠ '\r' ∧ c ≠ '\n' then ' ' else c
    c' :: overwriteBuf rest (start - 1) (if start = 0 then len - 1 else len)

/-- One entry of the `conditions` vector in `test_condition`: the
`Match_Pass`, `Match_OpAnd`, `Match_OpOr` bits (lines 298-308) as named
booleans. -/
structure CEntry where
  pass : Bool
  opAnd : Bool
  opOr : Bool
deriving Repr, DecidableEq

instance : Inhabited CEntry := ⟨⟨false, false, false⟩⟩

/-- The `opFlag` local of `test_condition`: `0`, `Match_OpAnd` or
`Match_OpOr`. -/
inductive OpFlag where
  | noOp
  | andOp
  | orOp
deriving Repr, DecidableEq

/-- `strncmp(symStart, op, symLength) == 0` for a two-character operator
literal `op` (lines 759 and 763): `strncmp` stops at `symLength`
characters or at the literal's NUL, so the token matches exactly when it
is the one-character prefix or the full two characters. -/
def strncmpOp2 (sym : List Char) (a : Char) : Bool :=
  sym == [a] || sym == [a, a]

/-- The tail of one `test_condition` iteration (lines 773-782): the word
test against the define set, producing the entry `cond | opFlag` to push
and the state with any type error reported. -/
def condTerm (st : PState) (opFlag : OpFlag) (ty : ELexType) (sym : List Char)
    (mustEqual : Bool) : CEntry × PState :=
  if ty = ELexType.Word then
    (⟨has_define st.defines (String.mk sym) == mustEqual,
      opFlag = OpFlag.andOp, opFlag = OpFlag.orOp⟩, st)
  else
    (⟨false, opFlag = OpFlag.andOp, opFlag = OpFlag.orOp⟩,
     st.addErr (CErr.condUnexpectedType ty st.line))

/-- The term-collecting `while (true)` loop of `test_condition`
(lines 739-783).  `opFlag` is the pending combinator (it persists across
terms once set); `acc` is the `conditions` vector.  Fuel-indexed: `none`
models the loop still running when the fuel is spent (at the end of the
buffer `lex_next` returns length 0 and the loop makes no progress, so no
fuel suffices). -/
def condLoop : Nat → PState → OpFlag → List CEntry → Option (List CEntry × PState)
  | 0, _, _, _ => none
  | fuel + 1, st, opFlag, acc =>
    let r := lex_next (sfx st)
    let st1 := st.advance r.2.1
    if r.1 = ELexType.Newline then
      some (acc, { st1 with line := st1.line + 1, col := 0 })
    else
      -- `cond = 0; mustEqual = true;` then the operator handling
      if r.1 = ELexType.Operator then
        if r.2.2.head? = some '!' then
          -- negation: consume the next token and fall through
          let r2 := lex_next (sfx st1)
          let st2 := st1.advance r2.2.1
          let p := condTerm st2 opFlag r2.1 r2.2.2 false
          condLoop fuel p.2 opFlag (acc ++ [p.1])
        else if strncmpOp2 r.2.2 '&' then
          condLoop fuel st1 OpFlag.andOp acc
        else if strncmpOp2 r.2.2 '|' then
          condLoop fuel st1 OpFlag.orOp acc
        else
          -- unexpected operator: report, then consume the next token
          let st1e := st1.addErr (CErr.condUnexpectedOperator (r.2.2.headD ' ') st1.line)
          let r2 := lex_next (sfx st1e)
          let st2 := st1e.advance r2.2.1
          let p := condTerm st2 opFlag r2.1 r2.2.2 true
          condLoop fuel p.2 opFlag (acc ++ [p.1])
      else
        let p := condTerm st1 opFlag r.1 r.2.2 true
        condLoop fuel p.2 opFlag (acc ++ [p.1])

/-- The AND pass (lines 785-798): scanning from the last entry down to the
second, an entry carrying `Match_OpAnd` is combined into its left
neighbour's `Match_Pass` bit by logical AND and removed. -/
def andPass : List CEntry → List CEntry
  | [] => []
  | x :: rest =>
    match andPass rest with
    | [] => [x]
    | y :: rest2 =>
      if y.opAnd then { x with pass := x.pass && y.pass } :: rest2
      else x :: y :: rest2

/-- The OR pass (lines 800-813): same scan, combining `Match_OpOr` entries
by logical OR. -/
def orPass : List CEntry → List CEntry
  | [] => []
  | x :: rest =>
    match orPass rest with
    | [] => [x]
    | y :: rest2 =>
      if y.opOr then { x with pass := x.pass || y.pass } :: rest2
      else x :: y :: rest2

/-- `test_condition` (lines 730-818): collect the entries, run the AND and
OR passes, fire `CCPP_ASSERT(conditions.size() == 1)` when the remainder is
not a single entry, and read `conditions[0] & Match_Pass`.  On an empty
remainder the C++ `conditions[0]` is an out-of-bounds read; the model
returns the default entry's `pass` (false) there. -/
def test_condition (fuel : Nat) (st : PState) : Option (Bool × PState) :=
  (condLoop fuel st OpFlag.noOp []).map fun r =>
    let after := orPass (andPass r.1)
    let st' := if after.length = 1 then r.2 else r.2.addErr (CErr.assertCondSize after.length)
    ((after.headD default).pass, st')

/-- `consume_line` (lines 837-846): lex tokens, advancing past each, until
(and including) a newline token; then bump the line counter.  At the end of
the buffer `lex` returns `(None, 0)` — the loop makes no progress and runs
forever, which the model reports as `none` for every fuel. -/
def consume_line : Nat → PState → Option PState
  | 0, _ => none
  | fuel + 1, st =>
    let r := lex (sfx st)
    let st1 := st.advance r.2
    if r.1 = ELexType.Newline then some { st1 with line := st1.line + 1, col := 0 }
    else consume_line fuel st1

/-- `expect_eol` (lines 820-835): the end of the buffer counts as an end of
line; otherwise expect a newline token and step one character past it
(`m_p++`, not the token length). -/
def expect_eol (st : PState) : PState :=
  if st.pos = st.buf.length then st
  else
    let r := lex_expect (sfx st) ELexType.Newline
    match r.2 with
    | some err => st.addErr err
    | none => { st with pos := st.pos + 1, line := st.line + 1, col := 0 }

/-- The two external collaborators (`m_includeCallback`,
`m_commandCallback`); `none` models an unset `std::function`. -/
structure Ctx where
  includeCB : Option (String → Bool)
  commandCB : Option (String → Option String → Bool)

/-- A processor with neither callback configured. -/
def ctxNone : Ctx := ⟨none, none⟩

/-- The `#define` branch (lines 437-469).  The `Bool` in the result is
false on the `continue` paths that abandon the line after a failed
`lex_expect` (skipping the final `overwrite`), true when control reaches
the end of the dispatch. -/
def directive_define (fuel : Nat) (isErasing : Bool) (st : PState) : Option (PState × Bool) :=
  if isErasing then (consume_line fuel st).map fun s => (s, true)
  else
    let r1 := lex_expect (sfx st) ELexType.Whitespace
    match r1.2 with
    | some err => some (st.addErr err, false)
    | none =>
      let st1 := st.advance r1.1
      let r2 := lex_expect (sfx st1) ELexType.Word
      match r2.2 with
      | some err => some (st1.addErr err, false)
      | none =>
        let word := String.mk ((sfx st1).take r2.1)
        let st2 := st1.advance r2.1
        some (expect_eol (add_defineS st2 word), true)

/-- The `#undef` branch (lines 471-503). -/
def directive_undef (fuel : Nat) (isErasing : Bool) (st : PState) : Option (PState × Bool) :=
  if isErasing then (consume_line fuel st).map fun s => (s, true)
  else
    let r1 := lex_expect (sfx st) ELexType.Whitespace
    match r1.2 with
    | some err => some (st.addErr err, false)
    | none =>
      let st1 := st.advance r1.1
      let r2 := lex_expect (sfx st1) ELexType.Word
      match r2.2 with
      | some err => some (st1.addErr err, false)
      | none =>
        let word := String.mk ((sfx st1).take r2.1)
        let st2 := st1.advance r2.1
        some (expect_eol (remove_defineS st2 word), true)

/-- The `#if` branch (lines 505-530): while erasing, push
`Scope_Erasing | Scope_Deep` and just consume the line; otherwise evaluate
the condition and push `Scope_Passing` or `Scope_Erasing`. -/
def directive_if (fuel : Nat) (isErasing : Bool) (st : PState) : Option (PState × Bool) :=
  if isErasing then
    (consume_line fuel { st with stack := scopeErasingDeep :: st.stack }).map fun s => (s, true)
  else
    let r1 := lex_expect (sfx st) ELexType.Whitespace
    match r1.2 with
    | some err => some (st.addErr err, false)
    | none =>
      let st1 := st.advance r1.1
      (test_condition fuel st1).map fun p =>
        ({ p.2 with stack := (if p.1 then scopePassing else scopeErasing) :: p.2.stack }, true)

/-- The `#else` branch (lines 532-565). -/
def directive_else (fuel : Nat) (isErasing isDeep : Bool) (st : PState) : Option (PState × Bool) :=
  if isErasing && isDeep then (consume_line fuel st).map fun s => (s, true)
  else
    match st.stack with
    | [] => (consume_line fuel (st.addErr (CErr.unexpectedElse st.line))).map fun s => (s, true)
    | top :: rest =>
      let st1 :=
        if top.scopeElse then st.addErr (CErr.unexpectedElse st.line)
        else
          let top' :=
            if top.passing then scopeErasingElse
            else if top.erasing then scopePassingElse
            else top
          { st with stack := top' :: rest }
      some (expect_eol st1, true)

/-- The `#elif` branch (lines 567-613): once the chain is passing, switch
to `Scope_Erasing | Scope_ElseIf | Scope_Deep` without evaluating the
condition; while erasing (and not yet taken) evaluate it and set the top
accordingly. -/
def directive_elif (fuel : Nat) (isErasing isDeep : Bool) (st : PState) : Option (PState × Bool) :=
  if isErasing && isDeep then (consume_line fuel st).map fun s => (s, true)
  else
    match st.stack with
    | [] => (consume_line fuel (st.addErr (CErr.unexpectedElif st.line))).map fun s => (s, true)
    | top :: rest =>
      if top.scopeElse then
        (consume_line fuel (st.addErr (CErr.unexpectedElif st.line))).map fun s => (s, true)
      else if top.passing then
        (consume_line fuel { st with stack := scopeErasingElseIfDeep :: rest }).map fun s =>
          (s, true)
      else
        let r1 := lex_expect (sfx st) ELexType.Whitespace
        match r1.2 with
        | some err => some (st.addErr err, false)
        | none =>
          let st1 := st.advance r1.1
          -- `test_condition` leaves the stack alone, so writing through the
          -- C++ `top` reference afterwards replaces the same frame
          (test_condition fuel st1).map fun p =>
            ({ p.2 with
                stack := (if p.1 then scopePassingElseIf else scopeErasingElseIf) :: rest },
             true)

/-- The `#endif` branch (lines 615-629). -/
def directive_endif (fuel : Nat) (st : PState) : Option (PState × Bool) :=
  match st.stack with
  | [] => (consume_line fuel (st.addErr (CErr.unexpectedEndif st.line))).map fun s => (s, true)
  | _ :: rest => some ({ expect_eol st with stack := rest }, true)

/-- The `#include` branch (lines 631-672). -/
def directive_include (ctx : Ctx) (fuel : Nat) (isErasing : Bool) (st : PState) :
    Option (PState × Bool) :=
  if isErasing then (consume_line fuel st).map fun s => (s, true)
  else
    match ctx.includeCB with
    | none =>
      (consume_line fuel (st.addErr (CErr.noIncludeCallback st.line))).map fun s => (s, true)
    | some cb =>
      let r1 := lex_expect (sfx st) ELexType.Whitespace
      match r1.2 with
      | some err => some (st.addErr err, false)
      | none =>
        let st1 := st.advance r1.1
        let r2 := lex_expect (sfx st1) ELexType.String
        match r2.2 with
        | some err => some (st1.addErr err, false)
        | none =>
          let path := String.mk (((sfx st1).drop 1).take (r2.1 - 2))
          let st2 := st1.advance r2.1
          let st3 := if cb path then st2 else st2.addErr (CErr.includeFailed path st2.line)
          some (expect_eol st3, true)

/-- The command value for an unknown directive (lines 688-708): lex at the
position right after the command word, skip one whitespace token, and
return `none` (the C++ `nullptr`) when the next token is a newline, else
that single token's text. -/
def customArg (s : List Char) : Option String :=
  let r := lex s
  let q :=
    if r.1 = ELexType.Whitespace then
      let s2 := s.drop r.2
      let r2 := lex s2
      (s2, r2.1, r2.2)
    else (s, r.1, r.2)
  if q.2.1 = ELexType.Newline then none
  else some (String.mk (q.1.take q.2.2))

/-- The unknown-command branch (lines 674-715): remember the line, consume
the line, and — when not erasing — invoke the custom-command callback with
the command word and `customArg`, reporting an unrecognized directive when
it is absent or returns false. -/
def directive_custom (ctx : Ctx) (fuel : Nat) (isErasing : Bool) (word : String) (st : PState) :
    Option (PState × Bool) :=
  let line := st.line
  let valueStart := sfx st
  match consume_line fuel st with
  | none => none
  | some st1 =>
    if isErasing then some (st1, true)
    else
      match ctx.commandCB with
      | none => some (st1.addErr (CErr.unknownCommand word line), true)
      | some cb =>
        let arg := customArg valueStart
        let found := cb word arg
        let st2 := { st1 with calls := st1.calls ++ [(word, arg)] }
        some ((if found then st2 else st2.addErr (CErr.unknownCommand word line)), true)

/-- The `strcmp` chain on the command word (lines 437-715). -/
def dispatch (ctx : Ctx) (fuel : Nat) (isErasing isDeep : Bool) (word : String) (st : PState) :
    Option (PState × Bool) :=
  if word == "define" then directive_define fuel isErasing st
  else if word == "undef" then directive_undef fuel isErasing st
  else if word == "if" then directive_if fuel isErasing st
  else if word == "else" then directive_else fuel isErasing isDeep st
  else if word == "elif" then directive_elif fuel isErasing isDeep st
  else if word == "endif" then directive_endif fuel st
  else if word == "include" then directive_include ctx fuel isErasing st
  else directive_custom ctx fuel isErasing word st

/-- Handling of one directive line (lines 423-718): step past the marker,
expect a command word (a failure abandons the line — `continue` — without
blanking), dispatch, and when control reaches line 717 blank the span from
the marker to the cursor with `overwrite`.  The `Bool` records whether the
final `overwrite` ran. -/
def handleDirective (ctx : Ctx) (fuel : Nat) (isErasing isDeep : Bool) (st : PState) :
    Option (PState × Bool) :=
  let commandStart := st.pos
  let st1 := st.advance 1
  let r := lex_expect (sfx st1) ELexType.Word
  match r.2 with
  | some err => some (st1.addErr err, false)
  | none =>
    let word := String.mk ((sfx st1).take r.1)
    let st2 := st1.advance r.1
    (dispatch ctx fuel isErasing isDeep word st2).map fun p =>
      (if p.2 then
        { p.1 with buf := overwriteBuf p.1.buf commandStart (p.1.pos - commandStart) }
       else p.1,
       p.2)

/-- The main scan loop of `process` (lines 398-719), one fuel unit per
iteration.  A newline resets the column and bumps the line; any other
character bumps the column, is blanked in place while erasing unless it is
the directive marker at column 0, in which case the directive machinery
runs. -/
def processLoop (ctx : Ctx) : Nat → PState → Option PState
  | 0, _ => none
  | fuel + 1, st =>
    if st.pos < st.buf.length then
      let isErasing := match st.stack with | [] => false | top :: _ => top.erasing
      let isDeep := match st.stack with | [] => false | top :: _ => top.deep
      let c := st.buf.getD st.pos ' '
      if c = '\n' then
        processLoop ctx fuel { st with pos := st.pos + 1, line := st.line + 1, col := 0 }
      else
        let colOld := st.col
        let st1 := { st with col := colOld + 1 }
        if colOld > 0 ∨ c ≠ character then
          let st2 := if isErasing then { st1 with buf := st1.buf.set st1.pos ' ' } else st1
          processLoop ctx fuel { st2 with pos := st2.pos + 1 }
        else
          match handleDirective ctx fuel isErasing isDeep st1 with
          | none => none
          | some p => processLoop ctx fuel p.1
    else some st

/-- `process(buffer, len)` (lines 385-728) from a given entry state of the
member `m_stack` (empty on a fresh processor): scan the whole buffer, then
report an unclosed-scope error carrying the residual depth if the stack is
non-empty.  The residual frames are NOT popped — the member stack keeps
them for the next call.  `none` models fuel exhaustion, i.e. the C++ loop
still running. -/
def processFuel (ctx : Ctx) (fuel : Nat) (buffer : List Char) (defines : List String)
    (stack0 : List Scope) : Option PState :=
  let st0 : PState := ⟨buffer, 0, 1, 0, defines, stack0, [], []⟩
  (processLoop ctx fuel st0).map fun st =>
    if st.stack.length > 0 then st.addErr (CErr.unclosedScopes st.stack.length) else st

/-- Number of `\n` characters in a buffer. -/
def countNl : List Char → Nat
  | [] => 0
  | c :: t => (if c = '\n' then 1 else 0) + countNl t

/-- Number of line-terminator characters (`\r` or `\n`) in a buffer. -/
def countTerm : List Char → Nat
  | [] => 0
  | c :: t => (if c = '\r' ∨ c = '\n' then 1 else 0) + countTerm t

@[simp] theorem advance_buf (st : PState) (n : Nat) : (st.advance n).buf = st.buf := rfl
@[simp] theorem advance_defines (st : PState) (n : Nat) : (st.advance n).defines = st.defines := rfl
@[simp] theorem advance_stack (st : PState) (n : Nat) : (st.advance n).stack = st.stack := rfl
@[simp] theorem advance_errors (st : PState) (n : Nat) : (st.advance n).errors = st.errors := rfl
@[simp] theorem advance_calls (st : PState) (n : Nat) : (st.advance n).calls = st.calls := rfl
@[simp] theorem advance_pos (st : PState) (n : Nat) : (st.advance n).pos = st.pos + n := rfl

@[simp] theorem addErr_buf (st : PState) (e : CErr) : (st.addErr e).buf = st.buf := rfl
@[simp] theorem addErr_defines (st : PState) (e : CErr) : (st.addErr e).defines = st.defines := rfl
@[simp] theorem addErr_stack (st : PState) (e : CErr) : (st.addErr e).stack = st.stack := rfl
@[simp] theorem addErr_calls (st : PState) (e : CErr) : (st.addErr e).calls = st.calls := rfl
@[simp] theorem addErr_pos (st : PState) (e : CErr) : (st.addErr e).pos = st.pos := rfl
@[simp] theorem addErr_errors (st : PState) (e : CErr) :
    (st.addErr e).errors = st.errors ++ [e] := rfl

/-- `consume_line` only moves the cursor: buffer, defines, stack, error log
and call log are untouched. -/
theorem consume_line_fields (fuel : Nat) (st st' : PState)
    (h : consume_line fuel st = some st') :
    st'.buf = st.buf ∧ st'.defines = st.defines ∧ st'.stack = st.stack ∧
    st'.errors = st.errors ∧ st'.calls = st.calls := by
  induction fuel generalizing st with
  | zero => simp [consume_line] at h
  | succ n ih =>
    rw [consume_line] at h
    split at h
    · cases h
      exact ⟨rfl, rfl, rfl, rfl, rfl⟩
    · simpa using ih _ h

/-- `condTerm` can only add an error. -/
theorem condTerm_fields (st : PState) (op : OpFlag) (ty : ELexType) (sym : List Char)
    (me : Bool) :
    (condTerm st op ty sym me).2.buf = st.buf ∧
    (condTerm st op ty sym me).2.defines = st.defines ∧
    (condTerm st op ty sym me).2.stack = st.stack ∧
    (condTerm st op ty sym me).2.calls = st.calls ∧
    (condTerm st op ty sym me).2.pos = st.pos := by
  unfold condTerm
  split <;> exact ⟨rfl, rfl, rfl, rfl, rfl⟩

/-- The condition parse loop only moves the cursor and reports errors. -/
theorem condLoop_fields (fuel : Nat) (st st' : PState) (op : OpFlag)
    (acc es : List CEntry) (h : condLoop fuel st op acc = some (es, st')) :
    st'.buf = st.buf ∧ st'.defines = st.defines ∧ st'.stack = st.stack ∧
    st'.calls = st.calls := by
  induction fuel generalizing st op acc es with
  | zero => simp [condLoop] at h
  | succ n ih =>
    rw [condLoop] at h
    split at h
    · cases h
      exact ⟨rfl, rfl, rfl, rfl⟩
    · split at h
      · split at h
        · have h2 := ih _ _ _ _ h
          have h3 := condTerm_fields
            ((st.advance (lex_next (sfx st)).2.1).advance
              (lex_next (sfx (st.advance (lex_next (sfx st)).2.1))).2.1)
            op (lex_next (sfx (st.advance (lex_next (sfx st)).2.1))).1
            (lex_next (sfx (st.advance (lex_next (sfx st)).2.1))).2.2 false
          simp only [advance_buf, advance_defines, advance_stack, advance_calls] at h2 h3
          exact ⟨h2.1.trans h3.1, h2.2.1.trans h3.2.1, h2.2.2.1.trans h3.2.2.1,
            h2.2.2.2.trans h3.2.2.2.1⟩
        · split at h
          · simpa using ih _ _ _ _ h
          · split at h
            · simpa using ih _ _ _ _ h
            · have h2 := ih _ _ _ _ h
              set stb := ((st.advance (lex_next (sfx st)).2.1).addErr
                (CErr.condUnexpectedOperator ((lex_next (sfx st)).2.2.headD ' ')
                  (st.advance (lex_next (sfx st)).2.1).line)) with hstb
              have h3 := condTerm_fields (stb.advance (lex_next (sfx stb)).2.1) op
                (lex_next (sfx stb)).1 (lex_next (sfx stb)).2.2 true
              simp only [advance_buf, advance_defines, advance_stack, advance_calls,
                addErr_buf, addErr_defines, addErr_stack, addErr_calls, hstb] at h2 h3
              exact ⟨h2.1.trans h3.1, h2.2.1.trans h3.2.1, h2.2.2.1.trans h3.2.2.1,
                h2.2.2.2.trans h3.2.2.2.1⟩
      · have h2 := ih _ _ _ _ h
        have h3 := condTerm_fields (st.advance (lex_next (sfx st)).2.1) op
          (lex_next (sfx st)).1 (lex_next (sfx st)).2.2 true
        simp only [advance_buf, advance_defines, advance_stack, advance_calls] at h2 h3
        exact ⟨h2.1.trans h3.1, h2.2.1.trans h3.2.1, h2.2.2.1.trans h3.2.2.1,
          h2.2.2.2.trans h3.2.2.2.1⟩

/-- `test_condition` only moves the cursor and reports errors. -/
theorem test_condition_fields (fuel : Nat) (st st' : PState) (b : Bool)
    (h : test_condition fuel st = some (b, st')) :
    st'.buf = st.buf ∧ st'.defines = st.defines ∧ st'.stack = st.stack ∧
    st'.calls = st.calls := by
  unfold test_condition at h
  cases hc : condLoop fuel st OpFlag.noOp [] with
  | none => rw [hc] at h; simp at h
  | some r =>
    rw [hc] at h
    simp only [Option.map_some] at h
    cases h
    have := condLoop_fields fuel st r.2 OpFlag.noOp [] r.1 (by rw [hc])
    split <;> simpa using this

/-- `expect_eol` only moves the cursor and reports errors. -/
theorem expect_eol_fields (st : PState) :
    (expect_eol st).buf = st.buf ∧ (expect_eol st).defines = st.defines ∧
    (expect_eol st).stack = st.stack ∧ (expect_eol st).calls = st.calls := by
  unfold expect_eol
  split
  · exact ⟨rfl, rfl, rfl, rfl⟩
  · dsimp only
    split <;> exact ⟨rfl, rfl, rfl, rfl⟩

/-- `add_define` leaves everything but the define set and error log alone. -/
theorem add_defineS_fields (st : PState) (w : String) :
    (add_defineS st w).buf = st.buf ∧ (add_defineS st w).stack = st.stack ∧
    (add_defineS st w).calls = st.calls ∧ (add_defineS st w).pos = st.pos := by
  unfold add_defineS
  split <;> exact ⟨rfl, rfl, rfl, rfl⟩

/-- `remove_define` leaves everything but the define set and error log alone. -/
theorem remove_defineS_fields (st : PState) (w : String) :
    (remove_defineS st w).buf = st.buf ∧ (remove_defineS st w).stack = st.stack ∧
    (remove_defineS st w).calls = st.calls ∧ (remove_defineS st w).pos = st.pos := by
  unfold remove_defineS
  split <;> exact ⟨rfl, rfl, rfl, rfl⟩

/-- `#define` never writes to the buffer. -/
theorem directive_define_buf (fuel : Nat) (er : Bool) (st : PState) (p : PState × Bool)
    (h : directive_define fuel er st = some p) : p.1.buf = st.buf := by
  unfold directive_define at h
  split at h
  · obtain ⟨s, hs, hfs⟩ := Option.map_eq_some'.mp h
    subst hfs
    exact (consume_line_fields _ _ _ hs).1
  · dsimp only at h
    split at h
    · injection h with h'; subst h'; rfl
    · split at h
      · injection h with h'; subst h'; rfl
      · injection h with h'; subst h'
        exact (expect_eol_fields _).1.trans (add_defineS_fields _ _).1

/-- `#undef` never writes to the buffer. -/
theorem directive_undef_buf (fuel : Nat) (er : Bool) (st : PState) (p : PState × Bool)
    (h : directive_undef fuel er st = some p) : p.1.buf = st.buf := by
  unfold directive_undef at h
  split at h
  · obtain ⟨s, hs, hfs⟩ := Option.map_eq_some'.mp h
    subst hfs
    exact (consume_line_fields _ _ _ hs).1
  · dsimp only at h
    split at h
    · injection h with h'; subst h'; rfl
    · split at h
      · injection h with h'; subst h'; rfl
      · injection h with h'; subst h'
        exact (expect_eol_fields _).1.trans (remove_defineS_fields _ _).1

/-- `#if` never writes to the buffer. -/
theorem directive_if_buf (fuel : Nat) (er : Bool) (st : PState) (p : PState × Bool)
    (h : directive_if fuel er st = some p) : p.1.buf = st.buf := by
  unfold directive_if at h
  split at h
  · obtain ⟨s, hs, hfs⟩ := Option.map_eq_some'.mp h
    subst hfs
    exact (consume_line_fields _ _ _ hs).1
  · dsimp only at h
    split at h
    · injection h with h'; subst h'; rfl
    · obtain ⟨s, hs, hfs⟩ := Option.map_eq_some'.mp h
      subst hfs
      obtain ⟨sb, sst⟩ := s
      exact (test_condition_fields _ _ _ _ hs).1

/-- `#else` never writes to the buffer. -/
theorem directive_else_buf (fuel : Nat) (er dp : Bool) (st : PState) (p : PState × Bool)
    (h : directive_else fuel er dp st = some p) : p.1.buf = st.buf := by
  unfold directive_else at h
  split at h
  · obtain ⟨s, hs, hfs⟩ := Option.map_eq_some'.mp h
    subst hfs
    exact (consume_line_fields _ _ _ hs).1
  · split at h
    · obtain ⟨s, hs, hfs⟩ := Option.map_eq_some'.mp h
      subst hfs
      exact (consume_line_fields _ _ _ hs).1
    · injection h with h'; subst h'
      dsimp only
      refine (expect_eol_fields _).1.trans ?_
      split
      · rfl
      · rfl

/-- `#elif` never writes to the buffer. -/
theorem directive_elif_buf (fuel : Nat) (er dp : Bool) (st : PState) (p : PState × Bool)
    (h : directive_elif fuel er dp st = some p) : p.1.buf = st.buf := by
  unfold directive_elif at h
  split at h
  · obtain ⟨s, hs, hfs⟩ := Option.map_eq_some'.mp h
    subst hfs
    exact (consume_line_fields _ _ _ hs).1
  · split at h
    · obtain ⟨s, hs, hfs⟩ := Option.map_eq_some'.mp h
      subst hfs
      exact (consume_line_fields _ _ _ hs).1
    · split at h
      · obtain ⟨s, hs, hfs⟩ := Option.map_eq_some'.mp h
        subst hfs
        exact (consume_line_fields _ _ _ hs).1
      · split at h
        · obtain ⟨s, hs, hfs⟩ := Option.map_eq_some'.mp h
          subst hfs
          exact (consume_line_fields _ _ _ hs).1
        · dsimp only at h
          split at h
          · injection h with h'; subst h'; rfl
          · obtain ⟨s, hs, hfs⟩ := Option.map_eq_some'.mp h
            subst hfs
            obtain ⟨sb, sst⟩ := s
            exact (test_condition_fields _ _ _ _ hs).1

/-- `#endif` never writes to the buffer. -/
theorem directive_endif_buf (fuel : Nat) (st : PState) (p : PState × Bool)
    (h : directive_endif fuel st = some p) : p.1.buf = st.buf := by
  unfold directive_endif at h
  split at h
  · obtain ⟨s, hs, hfs⟩ := Option.map_eq_some'.mp h
    subst hfs
    exact (consume_line_fields _ _ _ hs).1
  · injection h with h'; subst h'
    exact (expect_eol_fields _).1

/-- `#include` never writes to the buffer. -/
theorem directive_include_buf (ctx : Ctx) (fuel : Nat) (er : Bool) (st : PState)
    (p : PState × Bool) (h : directive_include ctx fuel er st = some p) : p.1.buf = st.buf := by
  unfold directive_include at h
  split at h
  · obtain ⟨s, hs, hfs⟩ := Option.map_eq_some'.mp h
    subst hfs
    exact (consume_line_fields _ _ _ hs).1
  · split at h
    · obtain ⟨s, hs, hfs⟩ := Option.map_eq_some'.mp h
      subst hfs
      exact (consume_line_fields _ _ _ hs).1
    · dsimp only at h
      split at h
      · injection h with h'; subst h'; rfl
      · split at h
        · injection h with h'; subst h'; rfl
        · injection h with h'; subst h'
          dsimp only
          refine (expect_eol_fields _).1.trans ?_
          split
          · rfl
          · rfl

/-- An unknown command never writes to the buffer. -/
theorem directive_custom_buf (ctx : Ctx) (fuel : Nat) (er : Bool) (w : String) (st : PState)
    (p : PState × Bool) (h : directive_custom ctx fuel er w st = some p) : p.1.buf = st.buf := by
  unfold directive_custom at h
  cases hc : consume_line fuel st with
  | none => rw [hc] at h; simp at h
  | some st1 =>
    rw [hc] at h
    dsimp only at h
    have hb1 := (consume_line_fields _ _ _ hc).1
    split at h
    · injection h with h'; subst h'; exact hb1
    · split at h
      · injection h with h'; subst h'; exact hb1
      · injection h with h'; subst h'
        dsimp only
        split
        · exact hb1
        · exact hb1

/-- The command dispatcher never writes to the buffer; all blanking happens
in `overwrite` afterwards. -/
theorem dispatch_buf (ctx : Ctx) (fuel : Nat) (er dp : Bool) (w : String) (st : PState)
    (p : PState × Bool) (h : dispatch ctx fuel er dp w st = some p) : p.1.buf = st.buf := by
  unfold dispatch at h
  split at h
  · exact directive_define_buf _ _ _ _ h
  · split at h
    · exact directive_undef_buf _ _ _ _ h
    · split at h
      · exact directive_if_buf _ _ _ _ h
      · split at h
        · exact directive_else_buf _ _ _ _ _ h
        · split at h
          · exact directive_elif_buf _ _ _ _ _ h
          · split at h
            · exact directive_endif_buf _ _ _ h
            · split at h
              · exact directive_include_buf _ _ _ _ _ h
              · exact directive_custom_buf _ _ _ _ _ _ h

/-- The in-place-editing relation: each output byte is either the input
byte or a blank written over a non-`\n` byte.  All buffer updates of
`process` (the erase write of line 416 and `overwrite`) respect it. -/
def BlankRel (a b : List Char) : Prop :=
  List.Forall₂ (fun x y => y = x ∨ (y = ' ' ∧ x ≠ '\n')) a b

theorem blankRel_refl (a : List Char) : BlankRel a a :=
  List.forall₂_same.mpr fun _ _ => Or.inl rfl

theorem blankRel_trans {a b c : List Char} (h1 : BlankRel a b) (h2 : BlankRel b c) :
    BlankRel a c := by
  induction h1 generalizing c with
  | nil => cases h2; exact List.Forall₂.nil
  | @cons x y l1 l2 hxy _ ih =>
    cases h2 with
    | cons hyz htl =>
      refine List.Forall₂.cons ?_ (ih htl)
      rcases hxy with h | ⟨h, hx⟩
      · rw [← h]; assumption
      · rcases hyz with h2 | ⟨h2, _⟩
        · exact Or.inr ⟨h2.trans h, hx⟩
        · exact Or.inr ⟨h2, hx⟩

theorem blankRel_length {a b : List Char} (h : BlankRel a b) : b.length = a.length :=
  h.length_eq.symm

/-- Writing a single space over a known non-newline byte. -/
theorem blankRel_set (a : List Char) (i : Nat) (hi : i < a.length)
    (hc : a.getD i ' ' ≠ '\n') : BlankRel a (a.set i ' ') := by
  induction a generalizing i with
  | nil => simp at hi
  | cons x t ih =>
    cases i with
    | zero =>
      refine List.Forall₂.cons (Or.inr ⟨rfl, ?_⟩) (blankRel_refl t)
      simpa using hc
    | succ n =>
      refine List.Forall₂.cons (Or.inl rfl) (ih n (by simpa using hi) (by simpa using hc))

/-- `overwrite` only writes spaces over non-terminator bytes. -/
theorem blankRel_overwrite (a : List Char) (s k : Nat) : BlankRel a (overwriteBuf a s k) := by
  induction a generalizing s k with
  | nil => exact List.Forall₂.nil
  | cons x t ih =>
    rw [overwriteBuf]
    refine List.Forall₂.cons ?_ (ih _ _)
    dsimp only
    split
    · next hcond => exact Or.inr ⟨rfl, hcond.2.2.2⟩
    · exact Or.inl rfl

/-- `BlankRel` preserves the `\n` count. -/
theorem blankRel_countNl {a b : List Char} (h : BlankRel a b) : countNl b = countNl a := by
  induction h with
  | nil => rfl
  | @cons x y _ _ hxy _ ih =>
    rw [countNl, countNl, ih]
    rcases hxy with h | ⟨h, hx⟩
    · rw [h]
    · rw [h]
      simp [hx]

/-- `BlankRel` pointwise, via `getD`. -/
theorem blankRel_getD {a b : List Char} (h : BlankRel a b) (i : Nat) :
    b.getD i ' ' = a.getD i ' ' ∨ (b.getD i ' ' = ' ' ∧ a.getD i ' ' ≠ '\n') := by
  induction h generalizing i with
  | nil => exact Or.inl rfl
  | @cons x y _ _ hxy _ ih =>
    cases i with
    | zero => simpa using hxy
    | succ n => simpa using ih n

/-- `BlankRel` never moves or erases a `\n`. -/
theorem blankRel_nl {a b : List Char} (h : BlankRel a b) (i : Nat)
    (hi : a.getD i ' ' = '\n') : b.getD i ' ' = '\n' := by
  rcases blankRel_getD h i with h2 | ⟨_, h3⟩
  · rw [h2, hi]
  · exact absurd hi h3

/-- One directive line: an abandoned dispatch (`continue` after a failed
`lex_expect`, second component false) leaves the buffer untouched; a
completed dispatch blanks exactly the span from the marker to the final
cursor with `overwrite`. -/
theorem handleDirective_buf (ctx : Ctx) (fuel : Nat) (er dp : Bool) (st : PState)
    (p : PState × Bool) (h : handleDirective ctx fuel er dp st = some p) :
    (p.2 = false → p.1.buf = st.buf) ∧
    (p.2 = true → p.1.buf = overwriteBuf st.buf st.pos (p.1.pos - st.pos)) := by
  unfold handleDirective at h
  dsimp only at h
  split at h
  · injection h with h2
    subst h2
    exact ⟨fun _ => rfl, fun hb => by simp at hb⟩
  · obtain ⟨q, hq, hfq⟩ := Option.map_eq_some'.mp h
    have hqb := dispatch_buf _ _ _ _ _ _ _ hq
    subst hfq
    cases hb : q.2 <;> simp [hqb]

/-- Every completed directive line relates input and output buffer by
`BlankRel`. -/
theorem handleDirective_rel (ctx : Ctx) (fuel : Nat) (er dp : Bool) (st : PState)
    (p : PState × Bool) (h : handleDirective ctx fuel er dp st = some p) :
    BlankRel st.buf p.1.buf := by
  have h2 := handleDirective_buf ctx fuel er dp st p h
  cases hb : p.2 with
  | false => rw [h2.1 hb]; exact blankRel_refl _
  | true => rw [h2.2 hb]; exact blankRel_overwrite _ _ _

/-- The main loop only blanks: whenever it completes, the final buffer is
`BlankRel`-related to the input buffer. -/
theorem processLoop_rel (ctx : Ctx) (fuel : Nat) (st st2 : PState)
    (h : processLoop ctx fuel st = some st2) : BlankRel st.buf st2.buf := by
  induction fuel generalizing st with
  | zero => simp [processLoop] at h
  | succ n ih =>
    rw [processLoop] at h
    split at h
    · next hlt =>
      dsimp only at h
      split at h
      · -- newline branch
        have h2 := ih _ h
        exact h2
      · next hnl =>
        split at h
        · -- ordinary character
          split at h
          · -- erasing: in-place blank of a non-newline byte
            next her =>
            have hrest := ih _ h
            refine blankRel_trans (blankRel_set st.buf st.pos hlt ?_) hrest
            exact hnl
          · have h2 := ih _ h
            exact h2
        · -- directive branch
          split at h
          · exact (Option.noConfusion h)
          · next p heq =>
            have h1 := handleDirective_rel _ _ _ _ _ _ heq
            have h2 := ih _ h
            exact blankRel_trans h1 h2
    · injection h with h2
      subst h2
      exact blankRel_refl _

/-- `lex` at the end of the buffer: no progress, type `None`. -/
theorem lex_nil : lex [] = (ELexType.None, 0) := rfl

/-- `consume_line` with the cursor at (or past) the end of the buffer
never returns: `lex` keeps yielding a zero-length `None` token, so the
loop makes no progress (the C++ loop at lines 837-846 spins forever). -/
theorem consume_line_end (fuel : Nat) (st : PState) (hend : st.buf.length ≤ st.pos) :
    consume_line fuel st = none := by
  induction fuel generalizing st with
  | zero => rfl
  | succ n ih =>
    have hsfx : sfx st = [] := by
      simp only [sfx]
      exact List.drop_eq_nil_of_le hend
    rw [consume_line, hsfx]
    simp only [lex_nil]
    rw [if_neg (by decide)]
    exact ih _ (by simpa using hend)

/-- Unfolding one newline step of the scan loop (line 409). -/
theorem processLoop_step_nl (ctx : Ctx) (n : Nat) (st : PState)
    (hlt : st.pos < st.buf.length) (hnl : st.buf.getD st.pos ' ' = '\n') :
    processLoop ctx (n+1) st =
      processLoop ctx n { st with pos := st.pos + 1, line := st.line + 1, col := 0 } := by
  rw [processLoop, if_pos hlt]
  dsimp only
  rw [if_pos hnl]

/-- Unfolding one plain-character step of the scan loop (line 414) when
the stack is empty (so nothing is erased). -/
theorem processLoop_step_plain (ctx : Ctx) (n : Nat) (st : PState)
    (hstack : st.stack = [])
    (hlt : st.pos < st.buf.length) (hnl : ¬ st.buf.getD st.pos ' ' = '\n')
    (hcond : st.col > 0 ∨ ¬ st.buf.getD st.pos ' ' = character) :
    processLoop ctx (n+1) st =
      processLoop ctx n { st with col := st.col + 1, pos := st.pos + 1 } := by
  rw [processLoop, if_pos hlt]
  dsimp only
  rw [if_neg hnl, if_pos hcond, hstack]
  simp

/-- A buffer with no directive marker at column 0 of any line: wherever the
marker character occurs, it is preceded by a non-newline character. -/
def NoMarker (buffer : List Char) : Prop :=
  ∀ i, i < buffer.length → buffer.getD i ' ' = character →
    0 < i ∧ buffer.getD (i-1) ' ' ≠ '\n'

instance (buffer : List Char) : Decidable (NoMarker buffer) := by
  unfold NoMarker
  infer_instance

/-- On a marker-free buffer the scan loop from an empty stack is a pure
cursor walk: it completes within `length - pos` steps and changes nothing
but the cursor. -/
theorem processLoop_id (ctx : Ctx) (fuel : Nat) (st : PState)
    (hnm : NoMarker st.buf) (hstack : st.stack = [])
    (hcol : st.col = 0 → st.pos = 0 ∨ st.buf.getD (st.pos - 1) ' ' = '\n')
    (hfuel : st.buf.length - st.pos < fuel) :
    ∃ st2, processLoop ctx fuel st = some st2 ∧ st2.buf = st.buf ∧
      st2.stack = st.stack ∧ st2.defines = st.defines ∧ st2.errors = st.errors := by
  induction fuel generalizing st with
  | zero => omega
  | succ n ih =>
    by_cases hlt : st.pos < st.buf.length
    · by_cases hnl : st.buf.getD st.pos ' ' = '\n'
      · rw [processLoop_step_nl ctx n st hlt hnl]
        obtain ⟨st2, h1, h2, h3, h4, h5⟩ :=
          ih { st with pos := st.pos + 1, line := st.line + 1, col := 0 }
            hnm hstack (fun _ => Or.inr (by simpa using hnl)) (by simp; omega)
        exact ⟨st2, h1, h2, h3, h4, h5⟩
      · have hcond : st.col > 0 ∨ ¬ st.buf.getD st.pos ' ' = character := by
          rcases Nat.eq_zero_or_pos st.col with h0 | hpos
          · right
            intro hch
            obtain ⟨hi, hprev⟩ := hnm st.pos hlt hch
            rcases hcol h0 with h | h
            · omega
            · exact hprev h
          · left; exact hpos
        rw [processLoop_step_plain ctx n st hstack hlt hnl hcond]
        obtain ⟨st2, h1, h2, h3, h4, h5⟩ :=
          ih { st with col := st.col + 1, pos := st.pos + 1 }
            hnm hstack (by intro h0; simp at h0) (by simp; omega)
        exact ⟨st2, h1, h2, h3, h4, h5⟩
    · rw [processLoop, if_neg hlt]
      exact ⟨st, rfl, rfl, rfl, rfl, rfl⟩

/-- A completed `process` pass relates input to output by `BlankRel`. -/
theorem processFuel_rel (ctx : Ctx) (fuel : Nat) (buffer : List Char) (defines : List String)
    (stack0 : List Scope) (st2 : PState)
    (h : processFuel ctx fuel buffer defines stack0 = some st2) : BlankRel buffer st2.buf := by
  unfold processFuel at h
  dsimp only at h
  obtain ⟨s, hs, hfs⟩ := Option.map_eq_some'.mp h
  have h1 := processLoop_rel ctx fuel _ _ hs
  subst hfs
  by_cases hlen : s.stack.length > 0
  · rw [if_pos hlen]; simpa using h1
  · rw [if_neg hlen]; simpa using h1

/-- Inside the blanked span, `overwrite` leaves a space or an untouched
line terminator. -/
theorem overwriteBuf_getD_in (a : List Char) (s k i : Nat) (h1 : s ≤ i) (h2 : i < s + k) :
    (overwriteBuf a s k).getD i ' ' = ' ' ∨
    ((overwriteBuf a s k).getD i ' ' = a.getD i ' ' ∧
      (a.getD i ' ' = '\r' ∨ a.getD i ' ' = '\n')) := by
  induction a generalizing s k i with
  | nil => left; rfl
  | cons c t ih =>
    rw [overwriteBuf]
    cases i with
    | zero =>
      have hs : s = 0 := Nat.le_zero.mp h1
      subst hs
      by_cases hc : c = '\r' ∨ c = '\n'
      · right
        constructor
        · dsimp only
          rw [if_neg]
          · rfl
          · rintro ⟨-, -, hr, hn⟩
            rcases hc with h | h
            · exact hr h
            · exact hn h
        · simpa using hc
      · left
        dsimp only
        rw [if_pos]
        · rfl
        · push_neg at hc
          exact ⟨rfl, by omega, hc.1, hc.2⟩
    | succ n =>
      have := ih (s - 1) (if s = 0 then k - 1 else k) n (by omega)
        (by split <;> omega)
      simpa using this

/-- The AND pass keeps the head entry's combinator flags (the merge at
lines 791-795 only touches the `Match_Pass` bit of the left neighbour). -/
theorem andPass_head (x : CEntry) (t : List CEntry) :
    ∃ y r, andPass (x :: t) = y :: r ∧ y.opAnd = x.opAnd ∧ y.opOr = x.opOr := by
  rw [andPass]
  cases h : andPass t with
  | nil => exact ⟨x, [], rfl, rfl, rfl⟩
  | cons y r2 =>
    dsimp only
    by_cases hy : y.opAnd = true
    · rw [if_pos hy]
      exact ⟨_, r2, rfl, rfl, rfl⟩
    · rw [if_neg hy]
      exact ⟨x, y :: r2, rfl, rfl, rfl⟩

/-- The OR pass keeps the head entry's combinator flags. -/
theorem orPass_head (x : CEntry) (t : List CEntry) :
    ∃ y r, orPass (x :: t) = y :: r ∧ y.opAnd = x.opAnd ∧ y.opOr = x.opOr := by
  rw [orPass]
  cases h : orPass t with
  | nil => exact ⟨x, [], rfl, rfl, rfl⟩
  | cons y r2 =>
    dsimp only
    by_cases hy : y.opOr = true
    · rw [if_pos hy]
      exact ⟨_, r2, rfl, rfl, rfl⟩
    · rw [if_neg hy]
      exact ⟨x, y :: r2, rfl, rfl, rfl⟩

/-- After the AND pass, when every non-head entry carried a combinator,
every surviving non-head entry carries the OR combinator. -/
theorem andPass_tail_opOr (l : List CEntry)
    (hl : ∀ e ∈ l.tail, e.opAnd = true ∨ e.opOr = true) :
    ∀ e ∈ (andPass l).tail, e.opOr = true := by
  induction l with
  | nil => intro e he; simp [andPass] at he
  | cons x t ih =>
    cases t with
    | nil => intro e he; simp [andPass] at he
    | cons z t2 =>
      have ht : ∀ e ∈ (andPass (z :: t2)).tail, e.opOr = true := by
        apply ih
        intro e he
        exact hl e (List.mem_cons_of_mem z he)
      obtain ⟨y, r, hy, hyAnd, hyOr⟩ := andPass_head z t2
      rw [andPass, hy]
      dsimp only
      by_cases hya : y.opAnd = true
      · rw [if_pos hya]
        intro e he
        exact ht e (by rw [hy]; exact he)
      · rw [if_neg hya]
        intro e he
        rcases List.mem_cons.mp he with rfl | he2
        · rcases hl z (List.mem_cons_self z t2) with h | h
          · exact absurd (hyAnd.trans h) hya
          · exact hyOr.trans h
        · exact ht e (by rw [hy]; exact he2)

/-- The OR pass collapses a list whose non-head entries all carry the OR
combinator down to a single entry. -/
theorem orPass_all (l : List CEntry) (hne : l ≠ [])
    (hl : ∀ e ∈ l.tail, e.opOr = true) : (orPass l).length = 1 := by
  induction l with
  | nil => exact absurd rfl hne
  | cons x t ih =>
    cases t with
    | nil => rfl
    | cons z t2 =>
      have ht : (orPass (z :: t2)).length = 1 := by
        apply ih (by simp)
        intro e he
        exact hl e (List.mem_cons_of_mem z he)
      obtain ⟨y, r, hy, hyAnd, hyOr⟩ := orPass_head z t2
      have hz : z.opOr = true := hl z (List.mem_cons_self z t2)
      rw [orPass, hy]
      dsimp only
      rw [if_pos (hyOr.trans hz)]
      rw [hy] at ht
      simp at ht
      simp [ht]

/-- An unknown directive with the callback configured, while not erasing:
exactly one invocation is logged, with `customArg` of the text after the
command word, and the unrecognized-directive error fires exactly when the
callback returns false. -/
theorem custom_with_cb (ctx : Ctx) (fuel : Nat) (w : String) (st : PState)
    (cb : String → Option String → Bool) (hcb : ctx.commandCB = some cb)
    (p : PState × Bool) (h : directive_custom ctx fuel false w st = some p) :
    p.2 = true ∧
    p.1.calls = st.calls ++ [(w, customArg (sfx st))] ∧
    p.1.errors = (if cb w (customArg (sfx st)) = true then st.errors
      else st.errors ++ [CErr.unknownCommand w st.line]) := by
  unfold directive_custom at h
  cases hc : consume_line fuel st with
  | none => rw [hc] at h; exact absurd h (by simp)
  | some st1 =>
    rw [hc] at h
    obtain ⟨hb, -, -, he, hcl⟩ := consume_line_fields fuel st st1 hc
    dsimp only at h
    rw [if_neg (show ¬(false = true) by simp)] at h
    rw [hcb] at h
    dsimp only at h
    split at h
    · next hfound =>
      injection h with h2
      subst h2
      refine ⟨rfl, by simp [hcl], ?_⟩
      rw [if_pos hfound]
      simp [he]
    · next hfound =>
      injection h with h2
      subst h2
      refine ⟨rfl, by simp [hcl], ?_⟩
      rw [if_neg hfound]
      simp [he, hcl]

/-- An unknown directive without a callback, while not erasing: no
invocation, an unrecognized-directive error. -/
theorem custom_no_cb (ctx : Ctx) (fuel : Nat) (w : String) (st : PState)
    (hcb : ctx.commandCB = none)
    (p : PState × Bool) (h : directive_custom ctx fuel false w st = some p) :
    p.2 = true ∧ p.1.calls = st.calls ∧
    p.1.errors = st.errors ++ [CErr.unknownCommand w st.line] := by
  unfold directive_custom at h
  cases hc : consume_line fuel st with
  | none => rw [hc] at h; exact absurd h (by simp)
  | some st1 =>
    rw [hc] at h
    obtain ⟨hb, -, -, he, hcl⟩ := consume_line_fields fuel st st1 hc
    dsimp only at h
    rw [if_neg (show ¬(false = true) by simp)] at h
    rw [hcb] at h
    dsimp only at h
    injection h with h2
    subst h2
    exact ⟨rfl, hcl, by simp [he]⟩

/-- An unknown directive while erasing: no invocation, no error. -/
theorem custom_erasing (ctx : Ctx) (fuel : Nat) (w : String) (st : PState)
    (p : PState × Bool) (h : directive_custom ctx fuel true w st = some p) :
    p.2 = true ∧ p.1.calls = st.calls ∧ p.1.errors = st.errors := by
  unfold directive_custom at h
  cases hc : consume_line fuel st with
  | none => rw [hc] at h; exact absurd h (by simp)
  | some st1 =>
    rw [hc] at h
    obtain ⟨hb, -, -, he, hcl⟩ := consume_line_fields fuel st st1 hc
    dsimp only at h
    rw [if_pos rfl] at h
    injection h with h2
    subst h2
    exact ⟨rfl, hcl, he⟩

/-! ## Claim theorems -/

/-- A processor whose custom-command callback accepts everything. -/
def cbTrue : String → Option String → Bool := fun _ _ => true

/-- A processor context with only the custom-command callback set. -/
def ctxCB : Ctx := ⟨none, some cbTrue⟩

/-- C1, counterexample: the claim says every line terminator (`\r` and
`\n`) survives in place and the terminator count is preserved.  It is not:
a `\r` inside an erased text region is an ordinary character to the main
loop (only `\n` is special-cased at line 409), so the erase write at
line 416 blanks it.  On `"#if A\nB\r\n#endif\n"` with no defines, the `\r`
at index 7 becomes a space and the terminator count drops from 4 to 3. -/
theorem C1_counterexample :
    (processFuel ctxNone 64 "#if A\nB\r\n#endif\n".toList [] []).map
        (fun st => (countTerm st.buf, st.buf.getD 7 ' ')) = some (3, ' ') ∧
    countTerm "#if A\nB\r\n#endif\n".toList = 4 ∧
    "#if A\nB\r\n#endif\n".toList.getD 7 ' ' = '\r' :=
  ⟨by decide, by decide, by decide⟩

/-- C1, amended: a completed `process` pass keeps the buffer length, maps
every byte to itself or to a space, preserves every `\n` in place, and
preserves the `\n` count.  (`\r` terminators inside erased regions are
blanked, so only `\n` enjoys the preservation the claim stated for both.) -/
theorem C1_amended (ctx : Ctx) (fuel : Nat) (buffer : List Char) (defines : List String)
    (stack0 : List Scope) (st2 : PState)
    (h : processFuel ctx fuel buffer defines stack0 = some st2) :
    st2.buf.length = buffer.length ∧
    (∀ i, st2.buf.getD i ' ' = buffer.getD i ' ' ∨
      (st2.buf.getD i ' ' = ' ' ∧ buffer.getD i ' ' ≠ '\n')) ∧
    (∀ i, buffer.getD i ' ' = '\n' → st2.buf.getD i ' ' = '\n') ∧
    countNl st2.buf = countNl buffer := by
  have hrel := processFuel_rel ctx fuel buffer defines stack0 st2 h
  exact ⟨blankRel_length hrel, blankRel_getD hrel, blankRel_nl hrel, blankRel_countNl hrel⟩

/-- Concrete completed pass for the C1 witness. -/
def c1wBuf : List Char := "a\n#if X\nb\n#endif\n".toList

/-- Its final state. -/
def c1wSt : PState := (processFuel ctxNone 64 c1wBuf [] []).getD default

set_option maxRecDepth 10000 in
/-- Witness for `C1_amended` at a concrete completed pass. -/
theorem C1_amended_witness :
    c1wSt.buf.length = c1wBuf.length ∧ countNl c1wSt.buf = countNl c1wBuf := by
  have h : processFuel ctxNone 64 c1wBuf [] [] = some c1wSt := by decide
  have h2 := C1_amended ctxNone 64 c1wBuf [] [] c1wSt h
  exact ⟨h2.1, h2.2.2.2⟩

/-- C2: the claim says a pass terminates for every buffer, including one
whose last directive line has no trailing newline.  The code does not:
`consume_line` (lines 837-846) loops forever once the cursor reaches the
buffer end, because `lex` then returns a zero-length non-newline token.
On `"#endif"` (empty stack, no trailing newline) the pass never finishes:
no amount of fuel makes the model return. -/
theorem C2_nontermination :
    (∀ fuel st, st.buf.length ≤ st.pos → consume_line fuel st = none) ∧
    (∀ fuel, processFuel ctxNone fuel "#endif".toList [] [] = none) := by
  constructor
  · exact consume_line_end
  · intro fuel
    match fuel with
    | 0 => rfl
    | f + 1 =>
      have hc : consume_line f ⟨['#', 'e', 'n', 'd', 'i', 'f'], 6, 1, 1, [], [],
          [CErr.unexpectedEndif 1], []⟩ = none :=
        consume_line_end f _ (by decide)
      simp +decide [processFuel, processLoop, handleDirective, dispatch, directive_endif,
        hc, lex_expect, sfx, PState.advance, PState.addErr,
        show (lex ['e', 'n', 'd', 'i', 'f']).2 = 5 from by decide]

/-- Witness for `C2_nontermination` at concrete fuels. -/
theorem C2_nontermination_witness :
    consume_line 5 ⟨['a'], 1, 1, 0, [], [], [], []⟩ = none ∧
    processFuel ctxNone 7 "#endif".toList [] [] = none :=
  ⟨C2_nontermination.1 5 _ (by decide), C2_nontermination.2 7⟩

/-- C3: AND binds tighter than OR in condition folding.  With `A` defined
and `B` not: `!A && B` is false, `!A || B` is false, `A || B` is true; and
in a full pass the `#if` body `X` is blanked, blanked, kept
respectively. -/
theorem C3_condition_folding :
    ((test_condition 50 ⟨"!A && B\n".toList, 0, 1, 0, ["A"], [], [], []⟩).map Prod.fst =
      some false) ∧
    ((test_condition 50 ⟨"!A || B\n".toList, 0, 1, 0, ["A"], [], [], []⟩).map Prod.fst =
      some false) ∧
    ((test_condition 50 ⟨"A || B\n".toList, 0, 1, 0, ["A"], [], [], []⟩).map Prod.fst =
      some true) ∧
    ((processFuel ctxNone 200 "#if !A && B\nX\n#endif\n".toList ["A"] []).map
      (fun st => String.mk st.buf) = some "           \n \n      \n") ∧
    ((processFuel ctxNone 200 "#if !A || B\nX\n#endif\n".toList ["A"] []).map
      (fun st => String.mk st.buf) = some "           \n \n      \n") ∧
    ((processFuel ctxNone 200 "#if A || B\nX\n#endif\n".toList ["A"] []).map
      (fun st => String.mk st.buf) = some "          \nX\n      \n") :=
  ⟨by decide, by decide, by decide, by decide, by decide, by decide⟩

/-- C4: once a chain is passing, a later `#elif` is erased without its
condition being consulted: with `FOO` defined, the output is identical
whether or not `BAR` is defined — `A` kept, `B` blanked, all directive
lines blanked. -/
theorem C4_elif_short_circuit :
    ((processFuel ctxNone 200 "#if FOO\nA\n#elif BAR\nB\n#endif\n".toList ["FOO"] []).map
      (fun st => String.mk st.buf) = some "       \nA\n         \n \n      \n") ∧
    ((processFuel ctxNone 200 "#if FOO\nA\n#elif BAR\nB\n#endif\n".toList
        ["FOO", "BAR"] []).map
      (fun st => String.mk st.buf) = some "       \nA\n         \n \n      \n") :=
  ⟨by decide, by decide⟩

/-- C5, counterexample: the claim says every line starting with the marker
is blanked through its newline even when a lexing error is reported.  It
is not: on `"#\n"` the missing command word makes `lex_expect` fail, the
dispatcher abandons the line (`continue` at line 428) before reaching the
`overwrite` at line 717, and the `#` survives verbatim. -/
theorem C5_counterexample :
    (processFuel ctxNone 64 "#\n".toList [] []).map PState.buf = some ['#', '\n'] := by
  decide

/-- C5, amended: a directive line abandoned on a failed token expectation
is not blanked at all; when the dispatch completes (reaching line 717),
exactly the span from the marker to the cursor's final position is
blanked — each byte in it becomes a space or is an untouched `\r`/`\n`.
(The cursor need not have passed the line's newline, e.g. after a
trailing-junk `expect_eol` error.) -/
theorem C5_amended (ctx : Ctx) (fuel : Nat) (er dp : Bool) (st : PState) (p : PState × Bool)
    (h : handleDirective ctx fuel er dp st = some p) :
    (p.2 = false → p.1.buf = st.buf) ∧
    (p.2 = true → ∀ i, st.pos ≤ i → i < p.1.pos →
      p.1.buf.getD i ' ' = ' ' ∨
      (p.1.buf.getD i ' ' = st.buf.getD i ' ' ∧
        (st.buf.getD i ' ' = '\r' ∨ st.buf.getD i ' ' = '\n'))) := by
  have hb := handleDirective_buf ctx fuel er dp st p h
  refine ⟨hb.1, fun h2 i hi1 hi2 => ?_⟩
  rw [hb.2 h2]
  exact overwriteBuf_getD_in st.buf st.pos (p.1.pos - st.pos) i hi1 (by omega)

/-- Concrete directive dispatch for the C5 witness. -/
def c5wSt : PState := ⟨"#endif\n".toList, 0, 1, 1, [], [scopePassing], [], []⟩

/-- Its result. -/
def c5wP : PState × Bool := (handleDirective ctxNone 50 false false c5wSt).getD (default, false)

set_option maxRecDepth 10000 in
/-- Witness for `C5_amended` at a concrete completed dispatch. -/
theorem C5_amended_witness :
    c5wP.1.buf.getD 0 ' ' = ' ' ∨
    (c5wP.1.buf.getD 0 ' ' = c5wSt.buf.getD 0 ' ' ∧
      (c5wSt.buf.getD 0 ' ' = '\r' ∨ c5wSt.buf.getD 0 ' ' = '\n')) :=
  (C5_amended ctxNone 50 false false c5wSt c5wP (by decide)).2 (by decide) 0
    (by decide) (by decide)

/-- C6, counterexample: the claim says the stack is empty when `process`
returns.  On `"#if A\n"` (no matching `#endif`) the unclosed-scope error
is reported but the residual frame is never popped: the final member stack
still holds the erasing frame. -/
theorem C6_counterexample :
    (processFuel ctxNone 64 "#if A\n".toList [] []).map PState.stack =
      some [scopeErasing] ∧
    (processFuel ctxNone 64 "#if A\n".toList [] []).map (fun st => st.errors.getLast?) =
      some (some (CErr.unclosedScopes 1)) :=
  ⟨by decide, by decide⟩

/-- C6, amended: when a pass completes, either the stack is empty or the
last reported error is an unclosed-scope error carrying exactly the
residual depth — and the residual frames stay on the member stack, so a
subsequent `process` call on the same instance starts inside them (the
concrete second call below starts erasing under the leftover frame and
blanks `X`). -/
theorem C6_amended :
    (∀ (ctx : Ctx) (fuel : Nat) (buffer : List Char) (defines : List String)
        (stack0 : List Scope) (st2 : PState),
      processFuel ctx fuel buffer defines stack0 = some st2 →
      st2.stack = [] ∨ st2.errors.getLast? = some (CErr.unclosedScopes st2.stack.length)) ∧
    (processFuel ctxNone 64 "#if A\n".toList [] []).map PState.stack =
      some [scopeErasing] ∧
    (processFuel ctxNone 64 "X\n".toList [] [scopeErasing]).map
      (fun st => String.mk st.buf) = some " \n" := by
  refine ⟨?_, by decide, by decide⟩
  intro ctx fuel buffer defines stack0 st2 h
  unfold processFuel at h
  dsimp only at h
  obtain ⟨s, hs, hfs⟩ := Option.map_eq_some'.mp h
  subst hfs
  by_cases hlen : s.stack.length > 0
  · rw [if_pos hlen]
    right
    simp [List.getLast?_concat]
  · rw [if_neg hlen]
    left
    exact List.length_eq_zero.mp (by omega)

/-- Final state of the C6 witness run. -/
def c6wSt : PState := (processFuel ctxNone 64 "#if A\n".toList [] []).getD default

set_option maxRecDepth 10000 in
/-- Witness for `C6_amended` at a concrete unbalanced pass. -/
theorem C6_amended_witness :
    c6wSt.stack = [] ∨ c6wSt.errors.getLast? = some (CErr.unclosedScopes c6wSt.stack.length) :=
  C6_amended.1 ctxNone 64 "#if A\n".toList [] [] c6wSt (by decide)

/-- C7: the claim (and the spec, which calls any other behaviour a defect)
requires a single-character Reject token for an unclassifiable character.
The lexer has no Reject case: it steps over the character with the type
still `None` and keeps scanning, so `"@\n"` lexes as one Newline token of
length 2, `"@a b"` starts a Word token of length 3 spanning the `@`, and a
buffer of only unclassifiable characters comes back as a single `None`
token covering all of them. -/
theorem C7_reject_scan :
    lex ['@', '\n'] = (ELexType.Newline, 2) ∧
    lex ['@', 'a', 'b'] = (ELexType.Word, 3) ∧
    lex ['@', '@'] = (ELexType.None, 2) :=
  ⟨by decide, by decide, by decide⟩

/-- C8, counterexample: the claim says the callback receives the entire
remainder of the line as the value.  It receives only the first token
after the skipped whitespace: on `"#foo bar baz\n"` the logged invocation
carries `"bar"`, not `"bar baz"`. -/
theorem C8_counterexample :
    (processFuel ctxCB 100 "#foo bar baz\n".toList [] []).map PState.calls =
      some [("foo", some "bar")] ∧
    ("bar" : String) ≠ "bar baz" :=
  ⟨by decide, by decide⟩

/-- C8, amended: for a non-erased unknown directive the configured
callback is invoked exactly once, with the command word and `customArg` of
the line tail — `none` when only whitespace/newline follows, otherwise the
single first token after one optional whitespace run (not the entire
remainder); an unrecognized-directive error is reported exactly when the
callback returns false or is absent; while erasing nothing is invoked or
reported. -/
theorem C8_amended :
    (∀ (ctx : Ctx) (fuel : Nat) (w : String) (st : PState)
        (cb : String → Option String → Bool) (p : PState × Bool),
      ctx.commandCB = some cb → directive_custom ctx fuel false w st = some p →
      p.2 = true ∧
      p.1.calls = st.calls ++ [(w, customArg (sfx st))] ∧
      p.1.errors = (if cb w (customArg (sfx st)) = true then st.errors
        else st.errors ++ [CErr.unknownCommand w st.line])) ∧
    (∀ (ctx : Ctx) (fuel : Nat) (w : String) (st : PState) (p : PState × Bool),
      ctx.commandCB = none → directive_custom ctx fuel false w st = some p →
      p.2 = true ∧ p.1.calls = st.calls ∧
      p.1.errors = st.errors ++ [CErr.unknownCommand w st.line]) ∧
    (∀ (ctx : Ctx) (fuel : Nat) (w : String) (st : PState) (p : PState × Bool),
      directive_custom ctx fuel true w st = some p →
      p.2 = true ∧ p.1.calls = st.calls ∧ p.1.errors = st.errors) :=
  ⟨fun ctx fuel w st cb p hcb h => custom_with_cb ctx fuel w st cb hcb p h,
   fun ctx fuel w st p hcb h => custom_no_cb ctx fuel w st hcb p h,
   fun ctx fuel w st p h => custom_erasing ctx fuel w st p h⟩

/-- Concrete state for the C8 witness: cursor right after the command word
of `#foo bar baz`. -/
def c8wSt : PState := ⟨" bar baz\n".toList, 0, 1, 4, [], [], [], []⟩

/-- Its dispatch result. -/
def c8wP : PState × Bool := (directive_custom ctxCB 50 false "foo" c8wSt).getD (default, false)

set_option maxRecDepth 10000 in
/-- Witness for `C8_amended` at a concrete invocation. -/
theorem C8_amended_witness :
    c8wP.1.calls = [] ++ [("foo", customArg (sfx c8wSt))] ∧
    customArg (sfx c8wSt) = some "bar" :=
  ⟨(C8_amended.1 ctxCB 50 "foo" c8wSt cbTrue c8wP rfl (by decide)).2.1, by decide⟩

/-- C9: a buffer with no marker at column 0 of any line comes back
byte-identical from a pass started with an empty stack. -/
theorem C9_identity (ctx : Ctx) (fuel : Nat) (buffer : List Char) (defines : List String)
    (hnm : NoMarker buffer) (hfuel : buffer.length < fuel) :
    (processFuel ctx fuel buffer defines []).map PState.buf = some buffer := by
  obtain ⟨st2, h1, h2, h3, -, -⟩ :=
    processLoop_id ctx fuel ⟨buffer, 0, 1, 0, defines, [], [], []⟩ hnm rfl
      (fun _ => Or.inl rfl) (by simpa using hfuel)
  unfold processFuel
  dsimp only
  rw [h1]
  simp at h3
  simp [h3, h2]

/-- Witness for `C9_identity`: markers appear only after column 0. -/
theorem C9_identity_witness :
    (processFuel ctxNone 64 "hello #x\n x#\n".toList [] []).map PState.buf =
      some "hello #x\n x#\n".toList :=
  C9_identity ctxNone 64 "hello #x\n x#\n".toList [] (by decide) (by decide)

/-- C10, counterexample: the claim says exactly one entry remains after
the two passes for every condition line, including one with no terms.  A
bare newline yields an empty entry list, the passes leave zero entries,
and a full pass over `"#if \nX\n#endif\n"` fires the
`CCPP_ASSERT(conditions.size() == 1)` with actual size 0. -/
theorem C10_counterexample :
    (condLoop 50 ⟨['\n'], 0, 1, 0, [], [], [], []⟩ OpFlag.noOp []).map
        (fun r => (orPass (andPass r.1)).length) = some 0 ∧
    (processFuel ctxNone 100 "#if \nX\n#endif\n".toList [] []).map PState.errors =
      some [CErr.assertCondSize 0] :=
  ⟨by decide, by decide⟩

/-- C10, amended: for a non-empty entry list in which every entry after
the first carries an AND or OR combinator (as produced by any condition
whose terms are all separated by `&&`/`||`), the AND pass followed by the
OR pass leaves exactly one entry, so the assertion holds and the read of
the sole entry is safe.  (Zero terms leave zero entries; adjacent terms
with no operator between them leave more than one.) -/
theorem C10_amended (l : List CEntry) (hne : l ≠ [])
    (hl : ∀ e ∈ l.tail, e.opAnd = true ∨ e.opOr = true) :
    (orPass (andPass l)).length = 1 := by
  cases l with
  | nil => exact absurd rfl hne
  | cons x t =>
    obtain ⟨y, r, hy, -, -⟩ := andPass_head x t
    apply orPass_all
    · rw [hy]; exact List.cons_ne_nil y r
    · exact andPass_tail_opOr (x :: t) hl

/-- Witness for `C10_amended` on a two-entry AND chain. -/
theorem C10_amended_witness :
    (orPass (andPass [⟨true, false, false⟩, ⟨false, true, false⟩])).length = 1 :=
  C10_amended [⟨true, false, false⟩, ⟨false, true, false⟩] (by decide) (by decide)
